import Mathlib

/-!
Shallow embedding of the ledger and settlement engine of the wagering
platform (source: `src/components/game/rps-game.tsx`,
`src/components/admin/users-admin.tsx`, and the versus-game admin card).

Modelling conventions:
* Firestore documents become records in lists; a Firestore
  `runTransaction` or `writeBatch` is one atomic commit, modelled as a
  single Lean function producing the next database state.  Two separate
  `await`ed writes (as in the admin balance edit, which first runs
  `updateDoc` and then `addDoc`) are modelled as two commits, exposing the
  intermediate state.
* JavaScript numbers holding integer amounts become `Int` (balances,
  ledger deltas) or `Nat` (validated stakes).  `Math.floor(x * 0.05)` on
  the integer prize pools in range computes exactly `5 * x / 100` with
  floor division, which is how the house fee is rendered here.
* `parseInt` of a prompt is modelled as an `Option Int` argument
  (`none` for a non-numeric input, i.e. `NaN`).
* Presentation-only fields (icons, image URLs, display usernames on
  ledger rows, `createdAt` timestamps) are elided; fields that gate
  control flow are kept.
-/

namespace Wager

/-- The three playable choices of `rps-game.tsx` (the TypeScript union
type of the `hostChoice`/`guestChoice` fields). -/
inductive Choice
  | rock
  | paper
  | scissors
  deriving DecidableEq, Repr, Fintype

/-- Result of a round, the return type of `determineWinner`. -/
inductive RpsResult
  | host
  | guest
  | draw
  deriving DecidableEq, Repr, Fintype

/-- `determineWinner` from `rps-game.tsx` lines 353-365: equal choices
draw; the three listed host-winning pairs give `host`; anything else
gives `guest`. -/
def determineWinner (hostChoice guestChoice : Choice) : RpsResult :=
  if hostChoice = guestChoice then .draw
  else if (hostChoice = .rock ∧ guestChoice = .scissors) ∨
          (hostChoice = .paper ∧ guestChoice = .rock) ∨
          (hostChoice = .scissors ∧ guestChoice = .paper) then .host
  else .guest

/-- The beats-relation as the spec words it (`rock>scissors`,
`paper>rock`, `scissors>paper`); spec-side definition kept for
comparison with the source's `determineWinner`. -/
def specBeats : Choice → Choice → Bool
  | .rock, .scissors => true
  | .paper, .rock => true
  | .scissors, .paper => true
  | _, _ => false

/-- The two balance currencies of an account (`points`, `cash`). -/
inductive Currency
  | points
  | cash
  deriving DecidableEq, Repr

/-- One row of the `transactions` collection: the ledger.  The house-fee
row written by the settlement batch carries no `userId`, hence the
`Option`. -/
structure LedgerEntry where
  userId : Option Nat
  amount : Int
  currency : Currency
  txType : String
  deriving DecidableEq, Repr

/-- The balance deltas and ledger rows committed by the settlement batch
of `makeChoice` (lines 235-339) for one completed round. -/
structure RoundDeltas where
  hostDelta : Int
  guestDelta : Int
  entries : List LedgerEntry
  deriving DecidableEq, Repr

/-- Settlement computation of `makeChoice`: total prize `2 * stake`,
house fee `Math.floor(totalPrize * 0.05)`, winner credited the
remainder; on a draw both stakes are returned.  The winner branch only
touches the winner's balance; the loser's delta is the explicit `0`. -/
def roundDeltas (stake : Nat) (hostId guestId : Nat) (hc gc : Choice) : RoundDeltas :=
  let totalPrize : Nat := stake * 2
  let houseFee : Nat := totalPrize * 5 / 100
  let winningPrize : Nat := totalPrize - houseFee
  match determineWinner hc gc with
  | .host =>
      ⟨(winningPrize : Int), 0,
        [⟨some hostId, (winningPrize : Int), .points, "rps_win"⟩,
         ⟨none, (houseFee : Int), .points, "admin_profit"⟩]⟩
  | .guest =>
      ⟨0, (winningPrize : Int),
        [⟨some guestId, (winningPrize : Int), .points, "rps_win"⟩,
         ⟨none, (houseFee : Int), .points, "admin_profit"⟩]⟩
  | .draw =>
      ⟨(stake : Int), (stake : Int),
        [⟨some hostId, (stake : Int), .points, "rps_draw"⟩,
         ⟨some guestId, (stake : Int), .points, "rps_draw"⟩]⟩

/-- An account document of the `users` collection.  Presentation fields
(`gcashNumber`, `isPaid`, `disabled`) play no role in the claims and are
elided. -/
structure User where
  id : Nat
  username : String
  points : Int
  cash : Int
  referrals : List String
  approved : Bool
  referralPending : Bool
  referrerId : Option Nat
  deriving DecidableEq, Repr

/-- A document of the `rpsRooms` collection. -/
structure RpsRoom where
  id : Nat
  hostId : Nat
  guestId : Option Nat
  hostChoice : Option Choice
  guestChoice : Option Choice
  stake : Nat
  status : String
  hostPaid : Bool
  guestPaid : Bool
  deriving DecidableEq, Repr

/-- `settings/referral` document (`ReferralSettings` interface,
`users-admin.tsx` lines 29-33). -/
structure ReferralSettings where
  referralBonus : Int
  maxReferrals : Nat
  enabled : Bool
  deriving DecidableEq, Repr

/-- The persisted collections the claims touch. -/
structure DB where
  users : List User
  rooms : List RpsRoom
  transactions : List LedgerEntry
  settings : ReferralSettings
  deriving DecidableEq, Repr

/-- Error outcomes surfaced through `setError` by the source handlers. -/
inductive OpError
  | userNotFound
  | insufficientPoints
  | minStake
  | invalidAmount
  deriving DecidableEq, Repr

/-- `transaction.update(doc(db, c, id), ...)`: rewrite the document with
the given id. -/
def updateUser (users : List User) (uid : Nat) (f : User → User) : List User :=
  users.map fun u => if u.id = uid then f u else u

/-- Room analogue of `updateUser`. -/
def updateRoom (rooms : List RpsRoom) (rid : Nat) (f : RpsRoom → RpsRoom) : List RpsRoom :=
  rooms.map fun r => if r.id = rid then f r else r

/-- `transaction.get(doc(db, c, id))` / `getDoc`. -/
def findUser (users : List User) (uid : Nat) : Option User :=
  users.find? fun u => u.id == uid

/-- Read one balance of an account. -/
def balOf (u : User) : Currency → Int
  | .points => u.points
  | .cash => u.cash

/-- Write one balance of an account. -/
def setBal (u : User) : Currency → Int → User
  | .points, v => { u with points := v }
  | .cash, v => { u with cash := v }

/-- `increment(d)` applied to the points balance of a document. -/
def addPts (d : Int) (v : User) : User := { v with points := v.points + d }

/-- `increment(d)` applied to the balance of currency `c`. -/
def incBal (c : Currency) (d : Int) (v : User) : User := setBal v c (balOf v c + d)

/-- `batch.update(userRef, { approved: true })`. -/
def approveF (v : User) : User := { v with approved := true }

/-- `batch.update(userRef, { referralPending: false })`. -/
def pendF (v : User) : User := { v with referralPending := false }

/-- `batch.update(referrerRef, ...)` of `approveUser`: absolute write of
the snapshot points plus 50 and the appended referral list. -/
def bonusF (referrerData : User) (username : String) (v : User) : User :=
  { v with points := referrerData.points + 50
           referrals := referrerData.referrals ++ [username] }

/-- Balance visible for an account id (0 when the document is absent —
only used on accounts the operations have checked to exist). -/
def bal (users : List User) (uid : Nat) (c : Currency) : Int :=
  match findUser users uid with
  | some u => balOf u c
  | none => 0

/-- Sum of the ledger deltas recorded for one account and currency. -/
def ledgerSum (txs : List LedgerEntry) (uid : Nat) (c : Currency) : Int :=
  ((txs.filter fun t => decide (t.userId = some uid ∧ t.currency = c)).map
    fun t => t.amount).sum

/-- `createRoom` (`rps-game.tsx` lines 91-157).  `stakeInput` is the
`parseInt` of the prompt (`none` for `NaN`); validation happens before
the transaction, the transaction then re-checks the balance, debits the
host, creates the room and appends the stake ledger row in one atomic
commit. -/
def createRoom (db : DB) (uid : Nat) (stakeInput : Option Int) (newRoomId : Nat) :
    DB × Option OpError :=
  match stakeInput with
  | none => (db, some .minStake)
  | some stakeAmount =>
    if stakeAmount < 10 then (db, some .minStake)
    else
      match findUser db.users uid with
      | none => (db, some .userNotFound)
      | some u =>
        if u.points < stakeAmount then (db, some .insufficientPoints)
        else
          let s : Nat := stakeAmount.toNat
          ({ db with
              users := updateUser db.users uid (addPts (-stakeAmount))
              rooms := db.rooms ++
                [⟨newRoomId, uid, none, none, none, s, "waiting", true, false⟩]
              transactions := db.transactions ++
                [⟨some uid, -stakeAmount, .points, "rps_stake"⟩] }, none)

/-- `joinRoom` (lines 159-208).  Called with the room snapshot from the
listener; a join by the room's own host returns silently before the
transaction.  No status check is performed by the source. -/
def joinRoom (db : DB) (room : RpsRoom) (uid : Nat) : DB × Option OpError :=
  if room.hostId = uid then (db, none)
  else
    match findUser db.users uid with
    | none => (db, some .userNotFound)
    | some u =>
      if u.points < (room.stake : Int) then (db, some .insufficientPoints)
      else
        ({ db with
            users := updateUser db.users uid (addPts (-(room.stake : Int)))
            rooms := updateRoom db.rooms room.id fun r =>
              { r with guestId := some uid, status := "playing", guestPaid := true }
            transactions := db.transactions ++
              [⟨some uid, -(room.stake : Int), .points, "rps_stake"⟩] }, none)

/-- The settlement `writeBatch` of `makeChoice` (lines 253-339), applied
once both choices of the freshly read room document are present: record
the round, clear both choices, and apply `roundDeltas`.  The winner
branch of the source updates only the winner's balance; crediting the
loser's explicit `0` delta leaves the same state.  A playing room always
carries a guest id; the source would fail on the `none` case. -/
def settleApply (db : DB) (room : RpsRoom) (hc gc : Choice) : DB :=
  match room.guestId with
  | none => db
  | some g =>
    let d := roundDeltas room.stake room.hostId g hc gc
    { db with
        users := updateUser
          (updateUser db.users room.hostId (addPts d.hostDelta)) g (addPts d.guestDelta)
        rooms := updateRoom db.rooms room.id fun r =>
          { r with hostChoice := none, guestChoice := none }
        transactions := db.transactions ++ d.entries }

/-- `endGame` of the two-party game (lines 367-425): host-initiated;
refunds the host, refunds the guest when present, moves the room to
`completed` — all in one batch. -/
def endGameRps (db : DB) (room : RpsRoom) (uid : Nat) : DB :=
  if room.hostId ≠ uid then db
  else
    let db1 : DB :=
      { db with
          users := updateUser db.users room.hostId (addPts (room.stake : Int))
          transactions := db.transactions ++
            [⟨some room.hostId, (room.stake : Int), .points, "rps_refund"⟩] }
    let db2 : DB :=
      match room.guestId with
      | some g =>
        { db1 with
            users := updateUser db1.users g (addPts (room.stake : Int))
            transactions := db1.transactions ++
              [⟨some g, (room.stake : Int), .points, "rps_refund"⟩] }
      | none => db1
    { db2 with rooms := updateRoom db2.rooms room.id fun r => { r with status := "completed" } }

/-- `quitGame` (lines 427-467): guest-initiated; the batch returns the
stake to the **host only**, appends the host's refund row, and completes
the room.  The guest's stake is forfeited with no ledger row. -/
def quitGame (db : DB) (room : RpsRoom) (uid : Nat) : DB :=
  if uid = room.hostId then db
  else
    { db with
        users := updateUser db.users room.hostId (addPts (room.stake : Int))
        rooms := updateRoom db.rooms room.id fun r => { r with status := "completed" }
        transactions := db.transactions ++
          [⟨some room.hostId, (room.stake : Int), .points, "rps_refund"⟩] }

/-- `approveUser` (`users-admin.tsx` lines 231-278): approve the account;
when it is referral-pending with an existing referrer, the same batch
sets the referrer's points to the snapshot value plus the hardcoded 50,
appends the referral, writes the bonus ledger row, and clears the
pending flag.  The `settings/referral` document is never consulted. -/
def approveUser (db : DB) (uid : Nat) : DB × Option OpError :=
  match findUser db.users uid with
  | none => (db, some .userNotFound)
  | some userData =>
    let approvedUsers := updateUser db.users uid approveF
    match userData.referralPending, userData.referrerId with
    | true, some rid =>
      match findUser db.users rid with
      | some referrerData =>
        ({ db with
            users := updateUser
              (updateUser approvedUsers rid (bonusF referrerData userData.username))
              uid pendF
            transactions := db.transactions ++
              [⟨some rid, 50, .points, "referral_bonus"⟩] }, none)
      | none => ({ db with users := approvedUsers }, none)
    | _, _ => ({ db with users := approvedUsers }, none)

/-- Ledger `type` string written by the admin edit
(`admin_points_update` / `admin_cash_update`). -/
def adminTxType : Currency → String
  | .points => "admin_points_update"
  | .cash => "admin_cash_update"

/-- Result of the admin balance edit: the state after the `updateDoc`
commit, the state after the following `addDoc` commit, and the error. -/
structure AdminEditResult where
  afterBalance : DB
  afterLog : DB
  err : Option OpError
  deriving DecidableEq, Repr

/-- `updateUserBalance` (`users-admin.tsx` lines 320-360): parse the
prompt; read the account; compute `difference = amount - current`; then
`await updateDoc` (first commit: `increment(difference)` on the balance)
and `await addDoc` (second commit: the ledger row) — two separate
commits, not one transaction. -/
def updateUserBalance (db : DB) (uid : Nat) (c : Currency) (input : Option Int) :
    AdminEditResult :=
  match input with
  | none => ⟨db, db, some .invalidAmount⟩
  | some amount =>
    match findUser db.users uid with
    | none => ⟨db, db, some .userNotFound⟩
    | some u =>
      let difference := amount - balOf u c
      let db1 : DB :=
        { db with
            users := updateUser db.users uid (incBal c difference) }
      let db2 : DB :=
        { db1 with
            transactions := db1.transactions ++
              [⟨some uid, difference, c, adminTxType c⟩] }
      ⟨db1, db2, none⟩

/-- A `versusGames` document (the EventPool of the spec); image and
timer fields elided, `endedAt` timestamps elided. -/
structure VersusGame where
  team1 : String
  team2 : String
  status : String
  winner : Option String
  prizePool : Int
  bettingEnabled : Bool
  deriving DecidableEq, Repr

/-- `endGame` of the versus admin card (`src/unnamed/part_000` lines
155-178): validate the prompt (`1` or `2`), then one batch sets
`status := completed` and the winner — with **no check of the current
status** and **no ledger writes** (the returned list is the ledger rows
appended by the batch: none). -/
def endGameVersus (g : VersusGame) (winnerInput : String) :
    Option (VersusGame × List LedgerEntry) :=
  if winnerInput ≠ "1" ∧ winnerInput ≠ "2" then none
  else
    some ({ g with
              status := "completed"
              winner := some (if winnerInput = "1" then g.team1 else g.team2) }, [])

/-- The room fields the settlement race of `makeChoice` reads and
writes, plus a count of committed settlement batches. -/
structure RaceRoom where
  hostChoice : Option Choice
  guestChoice : Option Choice
  settlements : Nat
  deriving DecidableEq, Repr

/-- Control point of one `makeChoice` caller between its `await`
boundaries: before its `updateDoc`, after it, after its `getDoc`
(holding the snapshot it read), and finished. -/
inductive CallerPhase
  | start
  | written
  | readDone (snapHost snapGuest : Option Choice)
  | finished
  deriving DecidableEq, Repr

/-- One `makeChoice` caller: which side it plays, its selected choice,
and its control point. -/
structure Caller where
  isHost : Bool
  choice : Choice
  phase : CallerPhase
  deriving DecidableEq, Repr

/-- One atomic step of a `makeChoice` caller (lines 210-346): the
`updateDoc` writes its own choice field; the `getDoc` reads both fields
into a local snapshot; if the snapshot shows both choices present, the
`writeBatch` clears both fields and commits one settlement — the
decision is taken on the snapshot, not re-checked at commit time. -/
def stepCaller (r : RaceRoom) (c : Caller) : RaceRoom × Caller :=
  match c.phase with
  | .start =>
    (if c.isHost then { r with hostChoice := some c.choice }
     else { r with guestChoice := some c.choice },
     { c with phase := .written })
  | .written => (r, { c with phase := .readDone r.hostChoice r.guestChoice })
  | .readDone h g =>
    match h, g with
    | some _, some _ =>
      ({ r with hostChoice := none, guestChoice := none, settlements := r.settlements + 1 },
       { c with phase := .finished })
    | _, _ => (r, { c with phase := .finished })
  | .finished => (r, c)

/-- The room together with the two racing callers. -/
structure RaceState where
  room : RaceRoom
  host : Caller
  guest : Caller
  deriving DecidableEq, Repr

/-- Run one step of the scheduled caller (`true` = host's caller). -/
def raceStep (s : RaceState) (hostTurn : Bool) : RaceState :=
  if hostTurn then
    let p := stepCaller s.room s.host
    { s with room := p.1, host := p.2 }
  else
    let p := stepCaller s.room s.guest
    { s with room := p.1, guest := p.2 }

/-- Execute an interleaving of the two callers. -/
def runRace (sched : List Bool) (s : RaceState) : RaceState :=
  sched.foldl raceStep s

/-- Both choices still open, host about to play rock, guest scissors. -/
def raceStart : RaceState :=
  ⟨⟨none, none, 0⟩, ⟨true, .rock, .start⟩, ⟨false, .scissors, .start⟩⟩

/-- Audit relation of the ledger: an operation taking `db` to `db'`
keeps, for every account and currency, the gap between the balance and
the replayed ledger sum unchanged — equivalently, every balance change
is mirrored by ledger rows of the same total in the same commit. -/
def preservesAudit (db db' : DB) : Prop :=
  ∀ uid c, bal db'.users uid c - ledgerSum db'.transactions uid c =
    bal db.users uid c - ledgerSum db.transactions uid c

/-- Every balance of every account is non-negative. -/
def allNonneg (users : List User) : Prop :=
  ∀ uid c, 0 ≤ bal users uid c

theorem findUser_updateUser (users : List User) (uid uid' : Nat) (f : User → User)
    (hf : ∀ u, (f u).id = u.id) :
    findUser (updateUser users uid f) uid' =
      (findUser users uid').map fun u => if u.id = uid then f u else u := by
  unfold findUser updateUser
  rw [List.find?_map]
  have hp : ((fun u : User => u.id == uid') ∘ fun u => if u.id = uid then f u else u) =
      fun u : User => u.id == uid' := by
    funext u
    by_cases h : u.id = uid <;> simp [Function.comp, h, hf]
  rw [hp]

theorem findUser_id (users : List User) (uid : Nat) (u : User)
    (hfind : findUser users uid = some u) : u.id = uid := by
  unfold findUser at hfind
  have h := List.find?_some hfind
  simpa using h

theorem bal_updateUser_self (users : List User) (uid : Nat) (c : Currency) (f : User → User)
    (u : User) (hf : ∀ v, (f v).id = v.id) (hfind : findUser users uid = some u) :
    bal (updateUser users uid f) uid c = balOf (f u) c := by
  unfold bal
  rw [findUser_updateUser users uid uid f hf, hfind]
  simp [findUser_id users uid u hfind]

theorem bal_updateUser_ne (users : List User) (uid uid' : Nat) (c : Currency)
    (f : User → User) (hf : ∀ v, (f v).id = v.id) (h : uid' ≠ uid) :
    bal (updateUser users uid f) uid' c = bal users uid' c := by
  unfold bal
  rw [findUser_updateUser users uid uid' f hf]
  cases hfind : findUser users uid' with
  | none => simp
  | some u =>
    have hid : u.id = uid' := findUser_id users uid' u hfind
    simp [hid, h]

theorem bal_updateUser_const (users : List User) (uid : Nat) (f : User → User)
    (hf : ∀ v, (f v).id = v.id) (hbal : ∀ v c, balOf (f v) c = balOf v c) :
    ∀ uid' c, bal (updateUser users uid f) uid' c = bal users uid' c := by
  intro uid' c
  unfold bal
  rw [findUser_updateUser users uid uid' f hf]
  cases hfind : findUser users uid' with
  | none => simp
  | some u =>
    by_cases h : u.id = uid <;> simp [h, hbal]

theorem ledgerSum_append (txs l : List LedgerEntry) (uid : Nat) (c : Currency) :
    ledgerSum (txs ++ l) uid c = ledgerSum txs uid c + ledgerSum l uid c := by
  simp [ledgerSum, List.filter_append]

theorem ledgerSum_single (e : LedgerEntry) (uid : Nat) (c : Currency) :
    ledgerSum [e] uid c = if e.userId = some uid ∧ e.currency = c then e.amount else 0 := by
  by_cases h : e.userId = some uid ∧ e.currency = c <;> simp [ledgerSum, h]

theorem ledgerSum_single_none (amt : Int) (cc : Currency) (ty : String)
    (uid : Nat) (c : Currency) :
    ledgerSum [⟨none, amt, cc, ty⟩] uid c = 0 := by
  simp [ledgerSum]

/-- A commit that shifts one balance of one existing account by `d` and
appends the matching ledger row preserves the audit relation. -/
theorem audit_shift (users : List User) (txs : List LedgerEntry) (uid : Nat) (c : Currency)
    (d : Int) (f : User → User) (u : User) (ty : String)
    (hf : ∀ v, (f v).id = v.id)
    (hfind : findUser users uid = some u)
    (hbal : ∀ c', balOf (f u) c' = balOf u c' + if c' = c then d else 0) :
    ∀ uid' c', bal (updateUser users uid f) uid' c' -
        ledgerSum (txs ++ [⟨some uid, d, c, ty⟩]) uid' c' =
      bal users uid' c' - ledgerSum txs uid' c' := by
  intro uid' c'
  rw [ledgerSum_append, ledgerSum_single]
  by_cases huid : uid' = uid
  · subst huid
    rw [bal_updateUser_self users uid' c' f u hf hfind, hbal]
    unfold bal
    rw [hfind]
    rcases eq_or_ne c' c with hc | hc
    · subst hc
      rw [if_pos rfl, if_pos (And.intro rfl rfl)]
      ring
    · rw [if_neg hc, if_neg (fun h => hc h.2.symm)]
      ring
  · rw [bal_updateUser_ne users uid uid' c' f hf huid]
    rw [if_neg (fun h => huid (Option.some.inj h.1).symm)]
    ring

theorem addPts_id (d : Int) : ∀ v, (addPts d v).id = v.id := fun _ => rfl

theorem incBal_id (c : Currency) (d : Int) : ∀ v, (incBal c d v).id = v.id := by
  intro v
  cases c <;> rfl

theorem approveF_id : ∀ v, (approveF v).id = v.id := fun _ => rfl

theorem pendF_id : ∀ v, (pendF v).id = v.id := fun _ => rfl

theorem bonusF_id (r : User) (name : String) : ∀ v, (bonusF r name v).id = v.id :=
  fun _ => rfl

theorem balOf_addPts (d : Int) (v : User) (c : Currency) :
    balOf (addPts d v) c = balOf v c + if c = Currency.points then d else 0 := by
  cases c <;> simp [addPts, balOf]

theorem balOf_incBal (c : Currency) (d : Int) (v : User) (c' : Currency) :
    balOf (incBal c d v) c' = balOf v c' + if c' = c then d else 0 := by
  cases c <;> cases c' <;> simp [incBal, setBal, balOf]

theorem balOf_approveF (v : User) (c : Currency) : balOf (approveF v) c = balOf v c := by
  cases c <;> rfl

theorem balOf_pendF (v : User) (c : Currency) : balOf (pendF v) c = balOf v c := by
  cases c <;> rfl

theorem findUser_updateUser_self (users : List User) (uid : Nat) (f : User → User) (u : User)
    (hf : ∀ v, (f v).id = v.id) (hfind : findUser users uid = some u) :
    findUser (updateUser users uid f) uid = some (f u) := by
  rw [findUser_updateUser users uid uid f hf, hfind]
  simp [findUser_id users uid u hfind]

theorem findUser_updateUser_ne (users : List User) (uid uid' : Nat) (f : User → User)
    (hf : ∀ v, (f v).id = v.id) (h : uid' ≠ uid) :
    findUser (updateUser users uid f) uid' = findUser users uid' := by
  rw [findUser_updateUser users uid uid' f hf]
  cases hfind : findUser users uid' with
  | none => rfl
  | some u => simp [findUser_id users uid' u hfind, h]

theorem balOf_setBal (u : User) (c c' : Currency) (v : Int) :
    balOf (setBal u c v) c' = if c' = c then v else balOf u c' := by
  cases c <;> cases c' <;> simp [setBal, balOf]

theorem ledgerSum_pair (e1 e2 : LedgerEntry) (uid : Nat) (c : Currency) :
    ledgerSum [e1, e2] uid c = ledgerSum [e1] uid c + ledgerSum [e2] uid c := by
  simpa using ledgerSum_append [e1] [e2] uid c

/-- A commit that shifts the points of two distinct existing accounts
and appends rows whose per-account sums match the two shifts preserves
the audit relation (the settlement and end-game batches). -/
theorem audit_two_updates (users : List User) (txs : List LedgerEntry)
    (h g : Nat) (dh dg : Int) (extra : List LedgerEntry)
    (f1 f2 : User → User) (u w : User)
    (hne : g ≠ h)
    (hu : findUser users h = some u) (hw : findUser users g = some w)
    (hf1 : ∀ v, (f1 v).id = v.id) (hf2 : ∀ v, (f2 v).id = v.id)
    (hb1 : ∀ c', balOf (f1 u) c' = balOf u c' + if c' = Currency.points then dh else 0)
    (hb2 : ∀ c', balOf (f2 w) c' = balOf w c' + if c' = Currency.points then dg else 0)
    (hsum : ∀ uid' c', ledgerSum extra uid' c' =
        (if uid' = h ∧ c' = Currency.points then dh else 0) +
        (if uid' = g ∧ c' = Currency.points then dg else 0)) :
    ∀ uid' c', bal (updateUser (updateUser users h f1) g f2) uid' c' -
        ledgerSum (txs ++ extra) uid' c' =
      bal users uid' c' - ledgerSum txs uid' c' := by
  intro uid' c'
  rw [ledgerSum_append, hsum]
  have hw1 : findUser (updateUser users h f1) g = some w := by
    rw [findUser_updateUser_ne users h g f1 hf1 hne]
    exact hw
  by_cases hg : uid' = g
  · rw [hg, bal_updateUser_self _ _ _ _ w hf2 hw1, hb2]
    unfold bal
    rw [hw]
    cases c' <;> simp [hne]
  · by_cases hh : uid' = h
    · rw [hh, bal_updateUser_ne _ _ _ _ _ hf2 (Ne.symm hne),
        bal_updateUser_self _ _ _ _ u hf1 hu, hb1]
      unfold bal
      rw [hu]
      cases c' <;> simp [Ne.symm hne]
    · rw [bal_updateUser_ne _ _ _ _ _ hf2 hg, bal_updateUser_ne _ _ _ _ _ hf1 hh]
      simp [hg, hh]

/-- C8: `determineWinner` is total on the nine ordered pairs, returns
`draw` exactly on equal choices, and is antisymmetric on decisive pairs:
`determineWinner a b = host` iff `determineWinner b a = guest`. -/
theorem determineWinner_total_antisym :
    (∀ a b : Choice, determineWinner a b = RpsResult.draw ↔ a = b) ∧
    (∀ a b : Choice, determineWinner a b = RpsResult.host ↔ determineWinner b a = RpsResult.guest) := by
  decide

/-- C2: for a completed round with stake `s`: equal choices settle as a
draw crediting each party `s` back with no fee row; otherwise the winner
is the party favoured by the beats-relation, the house fee is
`floor(2*s * 5 / 100)` recorded on a ledger row owned by no account, and
the winner is credited `2*s` minus that fee. -/
theorem rps_settlement_rules (s : Nat) (hi gi : Nat) (hc gc : Choice) :
    (hc = gc →
      roundDeltas s hi gi hc gc =
        ⟨(s : Int), (s : Int),
         [⟨some hi, (s : Int), Currency.points, "rps_draw"⟩,
          ⟨some gi, (s : Int), Currency.points, "rps_draw"⟩]⟩) ∧
    (specBeats hc gc = true →
      roundDeltas s hi gi hc gc =
        ⟨((2 * s : Nat) : Int) - ((2 * s * 5 / 100 : Nat) : Int), 0,
         [⟨some hi, ((2 * s : Nat) : Int) - ((2 * s * 5 / 100 : Nat) : Int), Currency.points, "rps_win"⟩,
          ⟨none, ((2 * s * 5 / 100 : Nat) : Int), Currency.points, "admin_profit"⟩]⟩) ∧
    (specBeats gc hc = true →
      roundDeltas s hi gi hc gc =
        ⟨0, ((2 * s : Nat) : Int) - ((2 * s * 5 / 100 : Nat) : Int),
         [⟨some gi, ((2 * s : Nat) : Int) - ((2 * s * 5 / 100 : Nat) : Int), Currency.points, "rps_win"⟩,
          ⟨none, ((2 * s * 5 / 100 : Nat) : Int), Currency.points, "admin_profit"⟩]⟩) := by
  refine ⟨?_, ?_, ?_⟩
  · intro h
    subst h
    simp [roundDeltas, determineWinner]
  · intro h
    cases hc <;> cases gc <;> simp_all [roundDeltas, determineWinner, specBeats, mul_comm] <;> omega
  · intro h
    cases hc <;> cases gc <;> simp_all [roundDeltas, determineWinner, specBeats, mul_comm] <;> omega

/-- Witness for C2 at the spec's own test vector: stake 100, `rock`
vs `scissors` — fee 10, winner credit 190. -/
theorem rps_settlement_rules_witness :
    specBeats Choice.rock Choice.scissors = true ∧
    roundDeltas 100 1 2 Choice.rock Choice.scissors =
      ⟨190, 0,
       [⟨some 1, 190, Currency.points, "rps_win"⟩,
        ⟨none, 10, Currency.points, "admin_profit"⟩]⟩ := by
  refine ⟨by decide, ?_⟩
  have h := (rps_settlement_rules 100 1 2 Choice.rock Choice.scissors).2.1 (by decide)
  simpa using h

/-- Sample database: one approved account with 100 points. -/
def dbOne : DB :=
  ⟨[⟨1, "alice", 100, 0, [], true, false, none⟩], [], [], ⟨50, 10, true⟩⟩

/-- A waiting room hosted by account 1. -/
def roomOne : RpsRoom := ⟨7, 1, none, none, none, 50, "waiting", true, false⟩

/-- C3: the settlement race of `makeChoice`.  Under the interleaving
where both callers write their choice, then both read (each snapshot
showing both choices present), then both commit their batches, **two**
settlements are committed for the single round — the code does not
guarantee exactly one.  Under the fully sequential interleaving exactly
one settlement is committed, so the model itself is not degenerate. -/
theorem rps_double_settlement_race :
    (runRace [true, false, true, false, true, false] raceStart).room.settlements = 2 ∧
    (runRace [true, true, true, false, false, false] raceStart).room.settlements = 1 := by
  decide

/-- A versus game that has already been resolved (status `completed`,
winner recorded). -/
def versusDone : VersusGame :=
  ⟨"Lions", "Tigers", "completed", some ("Lions"), 1000, false⟩

/-- C7 counterexample: resolving an already-completed versus game is not
rejected — `endGame` succeeds and changes state (here it overwrites the
recorded winner). -/
theorem versus_double_resolve_counterexample :
    endGameVersus versusDone ("2") =
      some ({ versusDone with winner := some ("Tigers") }, []) ∧
    ({ versusDone with winner := some ("Tigers") } : VersusGame) ≠ versusDone := by
  exact ⟨rfl, by decide⟩

/-- C7 (amended): `endGame` never consults the current status: for any
game — including one already in `completed` status — and any valid
winner input it succeeds, overwriting the status and the winner; it
appends no ledger rows, so it produces no payouts, duplicate or
otherwise. -/
theorem versus_resolve_no_guard (g : VersusGame) (w : String)
    (h : w = "1" ∨ w = "2") :
    endGameVersus g w =
      some ({ g with
                status := "completed"
                winner := some (if w = "1" then g.team1 else g.team2) }, []) := by
  rcases h with h | h <;> subst h <;> simp [endGameVersus]

/-- Witness for C7 at a concrete resolved game. -/
theorem versus_resolve_no_guard_witness :
    endGameVersus versusDone ("1") =
      some ({ versusDone with status := "completed", winner := some ("Lions") }, []) := by
  have h := versus_resolve_no_guard versusDone ("1") (Or.inl rfl)
  simpa [versusDone] using h

/-- C9: a non-numeric stake input or one below 10 is rejected before the
transaction runs — the database is returned untouched (no room, no
debit, no ledger row) together with the minimum-stake error. -/
theorem createRoom_min_stake (db : DB) (uid : Nat) (input : Option Int) (rid : Nat)
    (h : input = none ∨ ∃ n, input = some n ∧ n < 10) :
    createRoom db uid input rid = (db, some OpError.minStake) := by
  rcases h with h | ⟨n, h, hn⟩
  · subst h
    simp [createRoom]
  · subst h
    simp [createRoom, hn]

/-- Witness for C9 at stake input 5. -/
theorem createRoom_min_stake_witness :
    createRoom dbOne 1 (some 5) 7 = (dbOne, some OpError.minStake) :=
  createRoom_min_stake dbOne 1 (some 5) 7 (Or.inr ⟨5, rfl, by decide⟩)

/-- C10: a join by the room's own host returns before any write: the
database is unchanged and no error is surfaced. -/
theorem joinRoom_host_noop (db : DB) (room : RpsRoom) (uid : Nat)
    (h : room.hostId = uid) :
    joinRoom db room uid = (db, none) := by
  simp [joinRoom, h]

/-- Witness for C10: the host of `roomOne` joining their own room. -/
theorem joinRoom_host_noop_witness :
    joinRoom dbOne roomOne 1 = (dbOne, none) :=
  joinRoom_host_noop dbOne roomOne 1 rfl

/-- Host and guest with settled-out balances, playing room at stake 50. -/
def dbQuit : DB :=
  ⟨[⟨1, "alice", 0, 0, [], true, false, none⟩,
    ⟨2, "bob", 0, 0, [], true, false, none⟩],
   [⟨7, 1, some 2, none, none, 50, "playing", true, true⟩], [], ⟨50, 10, true⟩⟩

/-- The playing room of `dbQuit`. -/
def roomQuit : RpsRoom := ⟨7, 1, some 2, none, none, 50, "playing", true, true⟩

/-- C4 counterexample: the guest of the playing room quits; the host is
credited the stake back but the guest is not — the guest's balance stays
0 instead of receiving their reserved stake of 50, and no ledger row is
written for the guest. -/
theorem quit_guest_refund_counterexample :
    bal (quitGame dbQuit roomQuit 2).users 1 Currency.points = 50 ∧
    bal (quitGame dbQuit roomQuit 2).users 2 Currency.points = 0 ∧
    ledgerSum (quitGame dbQuit roomQuit 2).transactions 2 Currency.points = 0 := by
  decide

/-- C4 (amended): guest-initiated quit returns the **host's** stake to
the host with one refund ledger row and moves the room to `completed`;
the guest's reserved stake is forfeited — the guest's balances are
untouched and no ledger row mentions the guest. -/
theorem quit_refunds_host_only (db : DB) (room : RpsRoom) (g : Nat) (u : User)
    (hguest : g ≠ room.hostId)
    (hfind : findUser db.users room.hostId = some u) :
    bal (quitGame db room g).users room.hostId Currency.points
        = bal db.users room.hostId Currency.points + (room.stake : Int) ∧
    (∀ c, bal (quitGame db room g).users g c = bal db.users g c) ∧
    (quitGame db room g).transactions =
      db.transactions ++
        [⟨some room.hostId, (room.stake : Int), Currency.points, "rps_refund"⟩] ∧
    (quitGame db room g).rooms =
      updateRoom db.rooms room.id fun r => { r with status := "completed" } := by
  unfold quitGame
  rw [if_neg hguest]
  refine ⟨?_, ?_, rfl, rfl⟩
  · rw [bal_updateUser_self _ _ _ _ u (addPts_id _) hfind]
    unfold bal
    rw [hfind]
    simp [addPts, balOf]
  · intro c
    exact bal_updateUser_ne _ _ _ _ _ (addPts_id _) hguest

/-- Witness for C4 on the concrete playing room. -/
theorem quit_refunds_host_only_witness :
    bal (quitGame dbQuit roomQuit 2).users roomQuit.hostId Currency.points
      = bal dbQuit.users roomQuit.hostId Currency.points + (roomQuit.stake : Int) :=
  (quit_refunds_host_only dbQuit roomQuit 2
    ⟨1, "alice", 0, 0, [], true, false, none⟩ (by decide) (by decide)).1

/-- Referral scenario: account 1 already holds one referral while the
settings say the system is disabled, the cap is 1 and the configured
bonus is 70; account 2 is pending with referrer 1. -/
def dbRef : DB :=
  ⟨[⟨1, "carol", 0, 0, ["earlier"], true, false, none⟩,
    ⟨2, "dave", 0, 0, [], false, true, some 1⟩],
   [], [], ⟨70, 1, false⟩⟩

/-- C5 counterexample: with the referral system disabled, the referrer
at the cap, and a configured bonus of 70, `approveUser` still credits
the referrer — and credits the hardcoded 50, not the configured 70 —
and still appends the referral past the cap. -/
theorem referral_gate_counterexample :
    dbRef.settings.enabled = false ∧
    dbRef.settings.maxReferrals = 1 ∧
    dbRef.settings.referralBonus = 70 ∧
    (approveUser dbRef 2).2 = none ∧
    bal (approveUser dbRef 2).1.users 1 Currency.points = 50 ∧
    ((findUser (approveUser dbRef 2).1.users 1).map fun v => v.referrals)
      = some ["earlier", "dave"] := by
  decide

/-- C5 (amended): `approveUser` consults no referral settings at all:
whenever the approved account is referral-pending with an existing
referrer, the same batch credits the referrer a hardcoded 50 points (not
the configured bonus), appends one referral, records the bonus ledger
row and clears the pending flag — regardless of the enabled flag or the
maximum-referrals cap; the account itself is approved in every case. -/
theorem referral_bonus_ungated (db : DB) (uid rid : Nat) (u r : User)
    (hu : findUser db.users uid = some u)
    (hpend : u.referralPending = true)
    (href : u.referrerId = some rid)
    (hr : findUser db.users rid = some r)
    (hne : rid ≠ uid) :
    (approveUser db uid).2 = none ∧
    bal (approveUser db uid).1.users rid Currency.points = r.points + 50 ∧
    ((findUser (approveUser db uid).1.users rid).map fun v => v.referrals)
      = some (r.referrals ++ [u.username]) ∧
    ((findUser (approveUser db uid).1.users uid).map fun v => v.approved) = some true ∧
    (approveUser db uid).1.transactions =
      db.transactions ++ [⟨some rid, 50, Currency.points, "referral_bonus"⟩] ∧
    (approveUser db uid).1.settings = db.settings := by
  unfold approveUser
  rw [hu]
  simp only [hpend, href, hr]
  have h1 : findUser (updateUser db.users uid approveF) rid = some r := by
    rw [findUser_updateUser_ne _ _ _ _ approveF_id hne]
    exact hr
  have h2 : findUser (updateUser (updateUser db.users uid approveF) rid
      (bonusF r u.username)) rid = some (bonusF r u.username r) :=
    findUser_updateUser_self _ _ _ _ (bonusF_id r u.username) h1
  have h3 : findUser (updateUser db.users uid approveF) uid = some (approveF u) :=
    findUser_updateUser_self _ _ _ _ approveF_id hu
  have h4 : findUser (updateUser (updateUser db.users uid approveF) rid
      (bonusF r u.username)) uid = some (approveF u) := by
    rw [findUser_updateUser_ne _ _ _ _ (bonusF_id r u.username) (Ne.symm hne)]
    exact h3
  refine ⟨by trivial, ?_, ?_, ?_, by trivial, by trivial⟩
  · rw [bal_updateUser_ne _ _ _ _ _ pendF_id hne]
    unfold bal
    rw [h2]
    rfl
  · rw [findUser_updateUser_ne _ _ _ _ pendF_id hne, h2]
    rfl
  · rw [findUser_updateUser_self _ _ _ _ pendF_id h4]
    rfl

/-- Witness for C5 on the concrete referral scenario. -/
theorem referral_bonus_ungated_witness :
    bal (approveUser dbRef 2).1.users 1 Currency.points = (0 : Int) + 50 :=
  (referral_bonus_ungated dbRef 2 1
    ⟨2, "dave", 0, 0, [], false, true, some 1⟩
    ⟨1, "carol", 0, 0, ["earlier"], true, false, none⟩
    (by decide) rfl rfl (by decide) (by decide)).2.1

/-- Account with 100 points for the admin balance-edit scenarios. -/
def dbAdmin : DB :=
  ⟨[⟨1, "erin", 100, 0, [], true, false, none⟩], [], [], ⟨50, 10, true⟩⟩

/-- C6 counterexample: the admin edit performs no sign check on the
entered amount: entering -5 succeeds and leaves the points balance at
-5, below zero. -/
theorem negative_balance_counterexample :
    (updateUserBalance dbAdmin 1 Currency.points (some (-5))).err = none ∧
    bal (updateUserBalance dbAdmin 1 Currency.points (some (-5))).afterLog.users 1
      Currency.points = -5 := by
  decide

/-- C6 (amended): the stake debits of room create/join preserve
non-negativity of every balance (insufficient points are rejected), but
the admin balance edit sets the chosen balance to exactly the entered
integer — which may be negative. -/
theorem balance_nonneg_amended (db : DB) :
    (∀ uid input rid, allNonneg db.users → allNonneg (createRoom db uid input rid).1.users) ∧
    (∀ room uid, allNonneg db.users → allNonneg (joinRoom db room uid).1.users) ∧
    (∀ uid c a u, findUser db.users uid = some u →
      bal (updateUserBalance db uid c (some a)).afterLog.users uid c = a) := by
  refine ⟨?_, ?_, ?_⟩
  · intro uid input rid hna
    unfold createRoom
    cases input with
    | none => exact hna
    | some n =>
      by_cases h10 : n < 10
      · simp only [if_pos h10]
        exact hna
      · simp only [if_neg h10]
        cases hfind : findUser db.users uid with
        | none => exact hna
        | some u =>
          by_cases hpts : u.points < n
          · simp only [if_pos hpts]
            exact hna
          · simp only [if_neg hpts]
            intro uid' c
            by_cases huid : uid' = uid
            · rw [huid, bal_updateUser_self _ _ _ _ u (addPts_id _) hfind, balOf_addPts]
              have hb := hna uid c
              unfold bal at hb
              rw [hfind] at hb
              cases c <;> simp [balOf] at hb ⊢ <;> omega
            · rw [bal_updateUser_ne _ _ _ _ _ (addPts_id _) huid]
              exact hna uid' c
  · intro room uid hna
    unfold joinRoom
    by_cases hhost : room.hostId = uid
    · simp only [if_pos hhost]
      exact hna
    · simp only [if_neg hhost]
      cases hfind : findUser db.users uid with
      | none => exact hna
      | some u =>
        by_cases hpts : u.points < (room.stake : Int)
        · simp only [if_pos hpts]
          exact hna
        · simp only [if_neg hpts]
          intro uid' c
          by_cases huid : uid' = uid
          · rw [huid, bal_updateUser_self _ _ _ _ u (addPts_id _) hfind, balOf_addPts]
            have hb := hna uid c
            unfold bal at hb
            rw [hfind] at hb
            cases c <;> simp [balOf] at hb ⊢ <;> omega
          · rw [bal_updateUser_ne _ _ _ _ _ (addPts_id _) huid]
            exact hna uid' c
  · intro uid c a u hfind
    unfold updateUserBalance
    simp only [hfind]
    rw [bal_updateUser_self _ _ _ _ u (incBal_id _ _) hfind]
    cases c <;> simp [incBal, setBal, balOf]

/-- Witness for C6: the admin edit with entered amount 3 lands the
balance exactly at 3. -/
theorem balance_nonneg_amended_witness :
    bal (updateUserBalance dbAdmin 1 Currency.points (some 3)).afterLog.users 1
      Currency.points = 3 :=
  (balance_nonneg_amended dbAdmin).2.2 1 Currency.points 3
    ⟨1, "erin", 100, 0, [], true, false, none⟩ (by decide)

/-- C1 counterexample: the admin balance edit is two commits, not one
atomic transaction — after its first commit the balance has moved while
the ledger is untouched, so the intermediate state breaks the audit
relation (replaying the ledger does not reproduce the balance). -/
theorem ledger_atomicity_counterexample :
    (updateUserBalance dbAdmin 1 Currency.points (some 150)).err = none ∧
    bal (updateUserBalance dbAdmin 1 Currency.points (some 150)).afterBalance.users 1
      Currency.points = 150 ∧
    (updateUserBalance dbAdmin 1 Currency.points (some 150)).afterBalance.transactions
      = dbAdmin.transactions ∧
    ¬ preservesAudit dbAdmin
        (updateUserBalance dbAdmin 1 Currency.points (some 150)).afterBalance := by
  refine ⟨by decide, by decide, by decide, ?_⟩
  intro h
  have h1 := h 1 Currency.points
  revert h1
  decide

/-- C1 (amended): every balance-moving operation appends ledger rows
matching its balance deltas, so each complete operation preserves the
audit relation (balance drift equals ledger drift for every account and
currency).  The game and referral operations do this in one atomic
commit; the admin edit reaches the audited state only after its second
commit (`afterLog`) — its intermediate state is not audited (see the
counterexample). -/
theorem ledger_audit_preserved (db : DB) :
    (∀ uid input rid, preservesAudit db (createRoom db uid input rid).1) ∧
    (∀ room uid, preservesAudit db (joinRoom db room uid).1) ∧
    (∀ room g hc gc u w, room.guestId = some g → g ≠ room.hostId →
      findUser db.users room.hostId = some u → findUser db.users g = some w →
      preservesAudit db (settleApply db room hc gc)) ∧
    (∀ room uid u, room.guestId = none → findUser db.users room.hostId = some u →
      preservesAudit db (endGameRps db room uid)) ∧
    (∀ room uid g u w, room.guestId = some g → g ≠ room.hostId →
      findUser db.users room.hostId = some u → findUser db.users g = some w →
      preservesAudit db (endGameRps db room uid)) ∧
    (∀ room uid u, findUser db.users room.hostId = some u →
      preservesAudit db (quitGame db room uid)) ∧
    (∀ uid rid u, findUser db.users uid = some u → u.referrerId = some rid →
      rid ≠ uid → preservesAudit db (approveUser db uid).1) ∧
    (∀ uid c input, preservesAudit db (updateUserBalance db uid c input).afterLog) := by
  refine ⟨?_, ?_, ?_, ?_, ?_, ?_, ?_, ?_⟩
  · intro uid input rid
    unfold createRoom
    cases input with
    | none => intro uid' c'; rfl
    | some n =>
      by_cases h10 : n < 10
      · simp only [if_pos h10]
        intro uid' c'
        rfl
      · simp only [if_neg h10]
        cases hfind : findUser db.users uid with
        | none => intro uid' c'; rfl
        | some u =>
          by_cases hpts : u.points < n
          · simp only [if_pos hpts]
            intro uid' c'
            rfl
          · simp only [if_neg hpts]
            intro uid' c'
            exact audit_shift db.users db.transactions uid Currency.points (-n)
              (addPts (-n)) u ("rps_stake") (addPts_id _) hfind
              (fun c2 => balOf_addPts _ _ _) uid' c'
  · intro room uid
    unfold joinRoom
    by_cases hhost : room.hostId = uid
    · simp only [if_pos hhost]
      intro uid' c'
      rfl
    · simp only [if_neg hhost]
      cases hfind : findUser db.users uid with
      | none => intro uid' c'; rfl
      | some u =>
        by_cases hpts : u.points < (room.stake : Int)
        · simp only [if_pos hpts]
          intro uid' c'
          rfl
        · simp only [if_neg hpts]
          intro uid' c'
          exact audit_shift db.users db.transactions uid Currency.points
            (-(room.stake : Int)) (addPts (-(room.stake : Int))) u ("rps_stake")
            (addPts_id _) hfind (fun c2 => balOf_addPts _ _ _) uid' c'
  · intro room g hc gc u w hguest hne hu hw
    unfold settleApply
    rw [hguest]
    have hsum : ∀ uid' c',
        ledgerSum (roundDeltas room.stake room.hostId g hc gc).entries uid' c' =
          (if uid' = room.hostId ∧ c' = Currency.points then
            (roundDeltas room.stake room.hostId g hc gc).hostDelta else 0) +
          (if uid' = g ∧ c' = Currency.points then
            (roundDeltas room.stake room.hostId g hc gc).guestDelta else 0) := by
      intro uid' c'
      unfold roundDeltas
      cases determineWinner hc gc <;>
        · rw [ledgerSum_pair, ledgerSum_single, ledgerSum_single]
          by_cases h1 : uid' = room.hostId <;> by_cases h2 : uid' = g <;>
            cases c' <;> simp_all <;> omega
    intro uid' c'
    exact audit_two_updates db.users db.transactions room.hostId g
      (roundDeltas room.stake room.hostId g hc gc).hostDelta
      (roundDeltas room.stake room.hostId g hc gc).guestDelta
      (roundDeltas room.stake room.hostId g hc gc).entries
      (addPts _) (addPts _) u w hne hu hw (addPts_id _) (addPts_id _)
      (fun c2 => balOf_addPts _ _ _) (fun c2 => balOf_addPts _ _ _) hsum uid' c'
  · intro room uid u hguest hfind
    unfold endGameRps
    by_cases hact : room.hostId ≠ uid
    · simp only [if_pos hact]
      intro uid' c'
      rfl
    · simp only [if_neg hact, hguest]
      intro uid' c'
      exact audit_shift db.users db.transactions room.hostId Currency.points
        (room.stake : Int) (addPts (room.stake : Int)) u ("rps_refund")
        (addPts_id _) hfind (fun c2 => balOf_addPts _ _ _) uid' c'
  · intro room uid g u w hguest hne hu hw
    unfold endGameRps
    by_cases hact : room.hostId ≠ uid
    · simp only [if_pos hact]
      intro uid' c'
      rfl
    · simp only [if_neg hact, hguest]
      have hsum : ∀ uid' c',
          ledgerSum [⟨some room.hostId, (room.stake : Int), Currency.points, "rps_refund"⟩,
              ⟨some g, (room.stake : Int), Currency.points, "rps_refund"⟩] uid' c' =
            (if uid' = room.hostId ∧ c' = Currency.points then (room.stake : Int) else 0) +
            (if uid' = g ∧ c' = Currency.points then (room.stake : Int) else 0) := by
        intro uid' c'
        rw [ledgerSum_pair, ledgerSum_single, ledgerSum_single]
        by_cases h1 : uid' = room.hostId <;> by_cases h2 : uid' = g <;>
          cases c' <;> simp_all <;> omega
      intro uid' c'
      rw [List.append_assoc]
      exact audit_two_updates db.users db.transactions room.hostId g
        (room.stake : Int) (room.stake : Int)
        [⟨some room.hostId, (room.stake : Int), Currency.points, "rps_refund"⟩,
         ⟨some g, (room.stake : Int), Currency.points, "rps_refund"⟩]
        (addPts _) (addPts _) u w hne hu hw (addPts_id _) (addPts_id _)
        (fun c2 => balOf_addPts _ _ _) (fun c2 => balOf_addPts _ _ _) hsum uid' c'
  · intro room uid u hfind
    unfold quitGame
    by_cases hact : uid = room.hostId
    · simp only [if_pos hact]
      intro uid' c'
      rfl
    · simp only [if_neg hact]
      intro uid' c'
      exact audit_shift db.users db.transactions room.hostId Currency.points
        (room.stake : Int) (addPts (room.stake : Int)) u ("rps_refund")
        (addPts_id _) hfind (fun c2 => balOf_addPts _ _ _) uid' c'
  · intro uid rid u hu href hne
    unfold approveUser
    rw [hu]
    cases hp : u.referralPending with
    | false =>
      simp only [hp]
      intro uid' c'
      rw [bal_updateUser_const db.users uid approveF approveF_id
        (fun v c2 => balOf_approveF v c2) uid' c']
    | true =>
      simp only [hp, href]
      cases hr : findUser db.users rid with
      | none =>
        simp only [hr]
        intro uid' c'
        rw [bal_updateUser_const db.users uid approveF approveF_id
          (fun v c2 => balOf_approveF v c2) uid' c']
      | some r =>
        simp only [hr]
        have h1 : findUser (updateUser db.users uid approveF) rid = some r := by
          rw [findUser_updateUser_ne _ _ _ _ approveF_id hne]
          exact hr
        intro uid' c'
        rw [bal_updateUser_const (updateUser (updateUser db.users uid approveF) rid
            (bonusF r u.username)) uid pendF pendF_id
            (fun v c2 => balOf_pendF v c2) uid' c']
        have hmid := audit_shift (updateUser db.users uid approveF) db.transactions rid
          Currency.points 50 (bonusF r u.username) r ("referral_bonus")
          (bonusF_id r u.username) h1
          (fun c2 => by cases c2 <;> simp [bonusF, balOf]) uid' c'
        rw [hmid, bal_updateUser_const db.users uid approveF approveF_id
          (fun v c2 => balOf_approveF v c2) uid' c']
  · intro uid c input
    unfold updateUserBalance
    cases input with
    | none => intro uid' c'; rfl
    | some a =>
      cases hfind : findUser db.users uid with
      | none => intro uid' c'; rfl
      | some u =>
        intro uid' c'
        exact audit_shift db.users db.transactions uid c (a - balOf u c)
          (incBal c (a - balOf u c)) u (adminTxType c) (incBal_id _ _) hfind
          (fun c2 => balOf_incBal _ _ _ _) uid' c'

/-- Witness for C1: the quit refund on the concrete playing room
preserves the audit relation. -/
theorem ledger_audit_preserved_witness :
    preservesAudit dbQuit (quitGame dbQuit roomQuit 2) :=
  (ledger_audit_preserved dbQuit).2.2.2.2.2.1 roomQuit 2
    ⟨1, "alice", 0, 0, [], true, false, none⟩ (by decide)

end Wager
